import Mathlib

/- Verification of the AI Daily Digest pipeline (scripts/digest.py): a shallow
embedding of its scoring arithmetic, ranking, rendering, cache layer, feed
fetching and feed parsing, with theorems checking the specified behaviour.
Machine integers are modelled as Nat/Int, timestamps as seconds since the
epoch (Int), network and AI-service effects as explicit oracle parameters,
and Python exceptions as an explicit Except monad. -/

set_option maxHeartbeats 1000000
set_option maxRecDepth 8192

namespace Digest

/-- Python built-in `round` (round-half-to-even) applied to the fraction
`n / d`, for `d > 0`.  digest.py line 728 computes
`round(sum(scores.values()) / 3)`; for `3 ≤ sum ≤ 30` the IEEE double
`sum / 3` rounds to the same integer as the exact fraction (the exact value
is never closer than 1/6 to a half-integer boundary, far above double
rounding error), so the exact fraction is used here. -/
def pyRoundFrac (n d : ℤ) : ℤ :=
  let f := Int.fdiv n d
  let r2 := 2 * (n - f * d)
  if r2 < d then f else if d < r2 then f + 1 else if f % 2 = 0 then f else f + 1

/-- Round-half-up of the fraction `n / d` (`d > 0`): the rounding mode named
by the spec ("standard round-half-up"), written from the spec's words for
comparison with the code's rounding.  `floor(n/d + 1/2) = floor((2n+d)/(2d))`. -/
def roundHalfUpFrac (n d : ℤ) : ℤ := Int.fdiv (2 * n + d) (2 * d)

/-- Scoring batch size (digest.py line 236, `BATCH_SIZE = 10`). -/
def BATCH_SIZE : Nat := 10

/-- An article as produced by the fetch stage (digest.py 530-538): the raw
item enriched with the parsed publish date (epoch seconds; the unparseable
case defaults to the epoch sentinel, i.e. 0) and the source identity. -/
structure Article where
  title : String
  link : String
  pubDate : Int
  description : String
  sourceName : String
  sourceUrl : String
deriving DecidableEq, Repr, Inhabited

/-- The three integer ratings of one scoring-response entry
(`item['scores']` with keys relevance/quality/timeliness). -/
structure ScoreBreakdown where
  relevance : Nat
  quality : Nat
  timeliness : Nat
deriving DecidableEq, Repr

/-- One entry of a parsed scoring response (`result['results'][k]`,
digest.py 697-707): an article index within the batch, the three ratings,
a category label and keywords. -/
structure ScoreItem where
  index : Nat
  scores : ScoreBreakdown
  category : String
  keywords : List String
deriving DecidableEq, Repr

/-- A scored article (Article fields plus the fields added by
`score_articles` at digest.py 726-731, and the optional fields added later
by `summarize_articles` at digest.py 789-791, absent until then). -/
structure ScoredArticle where
  title : String
  link : String
  pubDate : Int
  description : String
  sourceName : String
  sourceUrl : String
  score : ℤ
  scoreBreakdown : ScoreBreakdown
  category : String
  keywords : List String
  titleZh : Option String := none
  summary : Option String := none
  reason : Option String := none
deriving DecidableEq, Repr

/-- Sum of the three ratings (`sum(scores.values())`, digest.py 728). -/
def sumScores (b : ScoreBreakdown) : Nat := b.relevance + b.quality + b.timeliness

/-- One iteration of the inner loop of `score_articles` (digest.py 725-732):
`articles[i + idx].copy()` enriched with score, breakdown, category and
keywords.  `score = round(sum(scores.values()) / 3)`. -/
def mkScored (a : Article) (it : ScoreItem) : ScoredArticle :=
  { title := a.title, link := a.link, pubDate := a.pubDate,
    description := a.description, sourceName := a.sourceName,
    sourceUrl := a.sourceUrl,
    score := pyRoundFrac (sumScores it.scores : ℤ) 3,
    scoreBreakdown := it.scores,
    category := it.category, keywords := it.keywords }

/-- The inner loop of `score_articles` over one parsed batch response
(digest.py 723-732): each result entry whose absolute index `i + idx` is in
range contributes one scored article; out-of-range entries are skipped. -/
def scoreBatch (articles : List Article) (i : Nat) (items : List ScoreItem) :
    List ScoredArticle :=
  items.filterMap fun it =>
    if i + it.index < articles.length then
      some (mkScored (articles.getD (i + it.index) default) it)
    else none

/-- `score_articles` (digest.py 709-736).  The AI call plus JSON parse for
batch `b` (articles `[b*10, b*10+10)`) is modelled by the oracle `resp b`:
`none` when the request or the parse raises (that batch is dropped whole,
`except` at 733-734), `some items` for a parsed `results` array. -/
def score_articles (articles : List Article) (resp : Nat → Option (List ScoreItem)) :
    List ScoredArticle :=
  (List.range ((articles.length + BATCH_SIZE - 1) / BATCH_SIZE)).foldl
    (fun scored b =>
      match resp b with
      | none => scored
      | some items => scored ++ scoreBatch articles (b * BATCH_SIZE) items)
    []

/-- The key comparison of the ranking step: article `a` sorts no later than
article `b` when `a`'s aggregate score is at least `b`'s
(`key=lambda x: x.get('score', 0), reverse=True`; the `score` key is always
present on a scored article). -/
def scoreGE (a b : ScoredArticle) : Prop := b.score ≤ a.score

instance : DecidableRel scoreGE := fun a b => Int.decLe b.score a.score

/-- Python `sorted(articles, key=lambda x: x.get('score', 0), reverse=True)`
(digest.py 1628 and 845).  `sorted` is documented as a stable sort, and
`reverse=True` keeps the original relative order of equal keys; a stable
sort is, as a function of the input list, uniquely determined by that
specification, and is realised here by stable insertion sort. -/
def sortByScoreDesc (articles : List ScoredArticle) : List ScoredArticle :=
  articles.insertionSort scoreGE

/-- The top-N selection of the ranking step
(`top_articles = sorted_articles[:args.top_n]`, digest.py 1629). -/
def topSelection (articles : List ScoredArticle) (topN : Nat) : List ScoredArticle :=
  (sortByScoreDesc articles).take topN

/-- One entry of a parsed summary response (`result['summaries'][k]`,
digest.py 786-791). -/
structure SummaryItem where
  index : Nat
  titleZh : String
  summary : String
  reason : String
deriving DecidableEq, Repr

/-- `summarize_articles` (digest.py 774-795): one batched request, modelled
by the oracle `resp` (`none` when the call or the JSON parse raises — every
article is then left unchanged); each returned entry with an in-range index
sets the localized title, summary and recommendation of that article.
An empty input returns immediately. -/
def summarize_articles (articles : List ScoredArticle)
    (resp : Option (List SummaryItem)) : List ScoredArticle :=
  if articles.isEmpty then articles
  else
    match resp with
    | none => articles
    | some items =>
      items.foldl (fun arts it =>
        if h : it.index < arts.length then
          arts.set it.index
            { arts.get ⟨it.index, h⟩ with
              titleZh := some it.titleZh, summary := some it.summary,
              reason := some it.reason }
        else arts) articles

/-- CATEGORY_META (digest.py 336-343): the fixed category catalog in
declaration order, as (id, (emoji, label)). -/
def CATEGORY_META : List (String × String × String) :=
  [("ai-ml", "🤖", "AI / ML"),
   ("security", "🔒", "安全"),
   ("engineering", "⚙️", "工程"),
   ("tools", "🛠", "工具 / 开源"),
   ("opinion", "💡", "观点 / 杂谈"),
   ("other", "📝", "其他")]

/-- `CATEGORY_META.get(a.get('category', 'other'), {'emoji': '📝',
'label': '其他'})` (digest.py 878). -/
def categoryMetaGet (cat : String) : String × String :=
  match CATEGORY_META.find? (fun p => p.1 == cat) with
  | some p => p.2
  | none => ("📝", "其他")

/-- Python truthiness of `d.get(k)` for an optional string field: false when
the key is absent or its value is the empty string. -/
def pyGetTruthy (v : Option String) : Bool :=
  match v with
  | none => false
  | some s => !(s == "")

/-- One iteration of the `by_category` grouping loop (digest.py 850-854),
with Python dict semantics: a new key is appended at the end (insertion
order), an existing key gets the article appended to its list. -/
def addToCategory (m : List (String × List ScoredArticle)) (a : ScoredArticle) :
    List (String × List ScoredArticle) :=
  if m.any (fun p => p.1 == a.category) then
    m.map (fun p => if p.1 = a.category then (p.1, p.2 ++ [a]) else p)
  else m ++ [(a.category, [a])]

/-- The `by_category` dict built at digest.py 849-854. -/
def groupByCategory (arts : List ScoredArticle) :
    List (String × List ScoredArticle) :=
  arts.foldl addToCategory []

/-- `by_category[cat]` (empty when the key is absent): the value of the
first entry carrying the key (`addToCategory` keeps keys unique). -/
def lookupCategory : List (String × List ScoredArticle) → String → List ScoredArticle
  | [], _ => []
  | p :: m, cat => if p.1 = cat then p.2 else lookupCategory m cat

/-- Lines of one detailed card of the 今日必读 section (digest.py 877-897),
for 1-based rank `i`. -/
def detailCardLines (i : Nat) (a : ScoredArticle) : List String :=
  let meta := categoryMetaGet a.category
  ["### " ++ toString i ++ ". " ++ a.titleZh.getD a.title,
   "",
   "**" ++ meta.1 ++ " " ++ meta.2 ++ "** | 评分: " ++ toString a.score ++ "/10",
   "",
   "📰 **来源**: [" ++ a.sourceName ++ "](" ++ a.sourceUrl ++ ")",
   "",
   "🔗 **原文**: [" ++ a.title ++ "](" ++ a.link ++ ")",
   ""]
  ++ (if pyGetTruthy a.summary then ["📝 **摘要**: " ++ a.summary.getD "", ""] else [])
  ++ (if pyGetTruthy a.reason then ["💡 **推荐**: " ++ a.reason.getD "", ""] else [])
  ++ (if a.keywords.isEmpty then []
      else ["🏷️ **标签**: " ++ String.intercalate ", " a.keywords, ""])
  ++ ["---", ""]

/-- The three detailed cards (`for i, a in enumerate(top_articles[:3], 1)`,
digest.py 877). -/
def detailCards (tops : List ScoredArticle) : List String :=
  ((tops.take 3).enum.map (fun p => detailCardLines (p.1 + 1) p.2)).flatten

/-- Lines of the 分类速览 section (digest.py 900-911): one subsection per
catalog category present in the grouping, in catalog order, each truncated
to 5 entries. -/
def categorySectionLines (byCat : List (String × List ScoredArticle)) :
    List String :=
  CATEGORY_META.foldl (fun lines meta =>
    if byCat.any (fun p => p.1 == meta.1) then
      lines ++ ["### " ++ meta.2.1 ++ " " ++ meta.2.2, ""]
        ++ ((lookupCategory byCat meta.1).take 5).map (fun a =>
            "- [" ++ a.titleZh.getD a.title ++ "](" ++ a.link ++ ") - "
              ++ a.sourceName ++ " (评分: " ++ toString a.score ++ ")")
        ++ [""]
    else lines) []

/-- `generate_markdown` (digest.py 839-920) as a pure function.  The two
`datetime.now()` stamps are passed in as `dateStr` (strftime %Y年%m月%d日)
and `timeStr` (strftime %Y-%m-%d %H:%M:%S). -/
def generate_markdown (articles : List ScoredArticle) (trends : String)
    (hours topN : Nat) (dateStr timeStr : String) : String :=
  let sorted_articles := sortByScoreDesc articles
  let top_articles := sorted_articles.take topN
  let by_category := groupByCategory sorted_articles
  let lines : List String :=
    ["# 🚀 技术日报 | " ++ dateStr,
     "",
     "*从 90 个顶级技术博客精选 | 近 " ++ toString hours ++ " 小时 | Top "
       ++ toString topN ++ " 必读*",
     "", "---", "",
     "## 📝 今日看点", "", trends, "", "---", "",
     "## 🏆 今日必读", ""]
    ++ detailCards top_articles
    ++ ["## 📊 分类速览", ""]
    ++ categorySectionLines by_category
    ++ ["---", "",
        "*Generated at " ++ timeStr ++ " by AI Daily Digest (Kimi Edition)*",
        "",
        "*Sources: 90 top tech blogs curated by Andrej Karpathy*"]
  String.intercalate "\n" lines

/-- The article list the renderer receives in the pipeline
(digest.py 1628-1638): the scored set is stable-sorted, truncated to the
top N, passed through the summarizer, and only that subset reaches
`generate_markdown`. -/
def renderInput (scored : List ScoredArticle) (topN : Nat)
    (summResp : Option (List SummaryItem)) : List ScoredArticle :=
  summarize_articles (topSelection scored topN) summResp

/-- The article group rendered under category `cat` in the document's
category overview: the grouping computed inside `generate_markdown` over
the articles the renderer receives, truncated to 5 (digest.py 903-905). -/
def docCategoryGroup (scored : List ScoredArticle) (topN : Nat)
    (summResp : Option (List SummaryItem)) (cat : String) : List ScoredArticle :=
  (lookupCategory
    (groupByCategory (sortByScoreDesc (renderInput scored topN summResp))) cat).take 5

/-- The claim's description of the category overview, written from the
spec's words: partition the full scored article set (every article that
received a score) by category and truncate each group to 5. -/
def specFullSetCategoryGroup (scored : List ScoredArticle) (cat : String) :
    List ScoredArticle :=
  (lookupCategory (groupByCategory (sortByScoreDesc scored)) cat).take 5

/-- Concrete scored-article constructor for the worked examples. -/
def mkTestScored (name : String) (sc : ℤ) (cat : String) : ScoredArticle :=
  { title := name, link := name, pubDate := 0, description := "",
    sourceName := "s", sourceUrl := "u", score := sc,
    scoreBreakdown := ⟨1, 1, 1⟩, category := cat, keywords := [] }

/-- One row of the `articles` cache table (digest.py 934-941): `link` is the
primary key; `fetched_at` is the row's insertion timestamp (epoch seconds,
the column's CURRENT_TIMESTAMP default). -/
structure CacheRecord where
  link : String
  title : String
  source : String
  pubDate : String
  fetchedAt : Int
deriving DecidableEq, Repr

/-- The cache database state: the `articles` table as its list of rows. -/
abbrev CacheState := List CacheRecord

/-- `is_article_cached` (digest.py 954-965): `SELECT 1 FROM articles WHERE
link = ?` then test for a row — a pure query, returning the answer together
with the (unchanged) store.  A storage error degrades to False; the
embedding models the error-free store. -/
def is_article_cached (link : String) (st : CacheState) : Bool × CacheState :=
  (st.any (fun r => r.link == link), st)

/-- `cache_article` (digest.py 967-980): `INSERT OR IGNORE INTO articles` —
the row is inserted only when no row with this link (the primary key)
already exists; otherwise the statement is ignored. -/
def cache_article (link title source pubDate : String) (now : Int)
    (st : CacheState) : CacheState :=
  if st.any (fun r => r.link == link) then st
  else st ++ [⟨link, title, source, pubDate, now⟩]

/-- `clean_old_cache` (digest.py 1022-1040), articles table: `DELETE FROM
articles WHERE fetched_at < datetime('now', '-{days} days')` — a row is
kept exactly when its `fetched_at` is at least `now` minus `days` days. -/
def clean_old_cache (days now : Int) (st : CacheState) : CacheState :=
  st.filter (fun r => decide (now - days * 86400 ≤ r.fetchedAt))

/-- Python exceptions tracked explicitly by the embedding. -/
inductive PyExc where
  | unboundLocal (name : String)
  | httpError (code : Nat) (location : Option String)
  | exc (msg : String)
deriving DecidableEq, Repr

/-- Run arguments of `main` relevant to the pipeline (digest.py 1472-1504):
time window in hours, top-N count, `--incremental`, `--no-cache`. -/
structure MainArgs where
  hours : Nat
  topN : Nat
  incremental : Bool
  noCache : Bool
deriving DecidableEq, Repr

/-- One iteration of the filter loop of `main` (digest.py 1587-1607): first
the time filter `pub_date >= cutoff` (timestamps are already UTC seconds,
so the timezone normalisation at 1592-1593 is the identity here), then, in
incremental mode with the cache enabled, the dedup filter: an
already-cached link is skipped, an uncached one is recorded
(`cache_article`, inserted at wall time `now`) and admitted. -/
def filterStep (incremental noCache : Bool) (cutoff now : Int)
    (acc : List Article × CacheState) (a : Article) :
    List Article × CacheState :=
  if cutoff ≤ a.pubDate then
    if incremental && !noCache then
      if (is_article_cached a.link acc.2).1 then acc
      else (acc.1 ++ [a],
            cache_article a.link a.title a.sourceName (toString a.pubDate) now acc.2)
    else (acc.1 ++ [a], acc.2)
  else acc

/-- The Step-2 filter of `main` (digest.py 1582-1607): fold the per-article
filter over the fetched articles, threading the cache store; returns the
admitted articles and the updated store. -/
def filterRecent (incremental noCache : Bool) (cutoff now : Int)
    (articles : List Article) (st : CacheState) :
    List Article × CacheState :=
  articles.foldl (filterStep incremental noCache cutoff now) ([], st)

/-- `analyze_trends` (digest.py 820-833): empty input or a failed call
(oracle `none`) yields the fixed placeholder, otherwise the trimmed
response text (trimming folded into the oracle). -/
def analyze_trends (articles : List ScoredArticle) (resp : Option String) : String :=
  if articles.isEmpty then "暂无趋势分析"
  else
    match resp with
    | none => "暂无趋势分析"
    | some t => t

/-- The pipeline portion of `main` (digest.py 1563-1645), from the
incremental-mode window adjustment to the document write, with effects as
parameters: `lastRun` is `get_last_run_time()`, `now` the wall clock in
epoch seconds, `fetched` the `fetch_all_feeds` result, `scoreResp` /
`summResp` / `trendsResp` the AI-call oracles, `st` the cache store, and
the two strftime stamps pre-rendered.  Returns the exit status and the
document written (`none` when the run halts first).  In incremental mode
with a recorded last run, line 1566 evaluates `timezone.utc`; Python makes
`timezone` local to `main` because of the `from datetime import timezone`
at line 1581, and it is unassigned at line 1566, so the run raises
UnboundLocalError there — modelled as `Except.error`.  (With `lastRun =
none` the `if last_run:` guard at 1565 is false and nothing is raised; the
window then keeps its configured value, so the cutoff below always uses
`args.hours`.) -/
def mainRun (args : MainArgs) (st : CacheState) (lastRun : Option Int) (now : Int)
    (fetched : List Article) (scoreResp : Nat → Option (List ScoreItem))
    (summResp : Option (List SummaryItem)) (trendsResp : Option String)
    (dateStr timeStr : String) : Except PyExc (Nat × Option String) :=
  if args.incremental && !args.noCache && lastRun.isSome then
    Except.error (PyExc.unboundLocal "timezone")
  else if fetched.isEmpty then Except.ok (1, none)
  else
    let cutoff : Int := now - (args.hours : Int) * 3600
    let recent := (filterRecent args.incremental args.noCache cutoff now fetched st).1
    if recent.isEmpty then Except.ok (1, none)
    else
      let scored := score_articles recent scoreResp
      if scored.isEmpty then Except.ok (1, none)
      else
        let top := topSelection scored args.topN
        let summarized := summarize_articles top summResp
        let trends := analyze_trends summarized trendsResp
        Except.ok (0, some (generate_markdown summarized trends args.hours args.topN
          dateStr timeStr))

/-- The observable outcome of a run: process exit status and output
document.  An uncaught exception aborts the interpreter with a traceback
and status 1, writing nothing. -/
def runOutcome (r : Except PyExc (Nat × Option String)) : Nat × Option String :=
  match r with
  | .error _ => (1, none)
  | .ok p => p

/-- Concrete article for the C7 witness: published exactly at the cutoff of
a 48-hour window ending at epoch second 200000. -/
def c7Art : Article :=
  { title := "t", link := "k", pubDate := 27200, description := "",
    sourceName := "s", sourceUrl := "u" }

/-- Case-insensitive character comparison (`re.IGNORECASE`). -/
def ciEq (a b : Char) : Bool := a.toLower == b.toLower

/-- `pat` is a case-insensitive prefix of `s`. -/
def ciStartsWith : List Char → List Char → Bool
  | [], _ => true
  | _ :: _, [] => false
  | p :: ps, c :: cs => ciEq p c && ciStartsWith ps cs

/-- Match the regex `<{tag}[^>]*>([^<]*)</{tag}>` (IGNORECASE | DOTALL) at
the start of `s` (the pattern of `get_tag_content`, digest.py 403-406),
returning the captured group.  Every piece is deterministic: the greedy
`[^>]*` is the maximal run of non-`>` and the following literal `>` can
only match there; the group `[^<]*` is the maximal run of non-`<`
(backtracking cannot shorten it because the following literal starts with
`<`); then `</{tag}>` must match literally. -/
def tagMatchAt (tag : List Char) (s : List Char) : Option (List Char) :=
  match s with
  | '<' :: s1 =>
    if ciStartsWith tag s1 then
      match (s1.drop tag.length).dropWhile (fun c => !(c == '>')) with
      | '>' :: s4 =>
        let grp := s4.takeWhile (fun c => !(c == '<'))
        match s4.dropWhile (fun c => !(c == '<')) with
        | '<' :: '/' :: s6 =>
          if ciStartsWith tag s6 then
            match s6.drop tag.length with
            | '>' :: _ => some grp
            | _ => none
          else none
        | _ => none
      | _ => none
    else none
  | _ => none

/-- `re.search` for the tag pattern: successive start positions, leftmost
match wins. -/
def tagSearch (tag : List Char) : List Char → Option (List Char)
  | [] => none
  | c :: cs =>
    match tagMatchAt tag (c :: cs) with
    | some g => some g
    | none => tagSearch tag cs

/-- `get_tag_content` (digest.py 403-406): the captured group of the first
match, or `''` when nothing matches. -/
def get_tag_content (xmlText : String) (tag : String) : String :=
  match tagSearch tag.data xmlText.data with
  | some g => String.mk g
  | none => ""

/-- `re.sub(r'<[^>]+>', '', text)` (digest.py 368): delete each
leftmost-first match of `<`, one or more non-`>` characters, `>`; an
unmatched `<` is kept and scanning resumes at the next character. -/
def removeTagsAux : Nat → List Char → List Char
  | 0, s => s
  | _ + 1, [] => []
  | fuel + 1, c :: cs =>
    if c == '<' then
      match cs with
      | [] => [c]
      | d :: ds =>
        if d == '>' then c :: removeTagsAux fuel cs
        else
          match (d :: ds).dropWhile (fun x => !(x == '>')) with
          | x :: s4 => if x == '>' then removeTagsAux fuel s4 else c :: removeTagsAux fuel cs
          | [] => c :: removeTagsAux fuel cs
    else c :: removeTagsAux fuel cs

/-- The tag-removal scan at full fuel: every step consumes at least one
character of the remaining text, so fuel equal to the length never runs
out. -/
def removeTags (s : List Char) : List Char := removeTagsAux s.length s

/-- Python `str.replace(pat, rep)` for a non-empty pattern: replace each
leftmost non-overlapping occurrence.  (The source only calls it with the
fixed non-empty entity literals, digest.py 370-372.) -/
def replaceSubAux (pat rep : List Char) : Nat → List Char → List Char
  | 0, s => s
  | _ + 1, [] => []
  | fuel + 1, c :: cs =>
    if pat ≠ [] ∧ pat.isPrefixOf (c :: cs) then
      rep ++ replaceSubAux pat rep fuel ((c :: cs).drop pat.length)
    else c :: replaceSubAux pat rep fuel cs

/-- The replacement scan at full fuel: each step consumes at least one
character (the pattern is non-empty), so fuel equal to the length never
runs out. -/
def replaceSub (pat rep : List Char) (s : List Char) : List Char :=
  replaceSubAux pat rep s.length s

/-- The entity decode table of `strip_html` (digest.py 370-372), applied in
source order (`&lt; &gt; &amp; &quot; &apos; &#39;`). -/
def decodeEntities (s : List Char) : List Char :=
  let s := replaceSub ['&', 'l', 't', ';'] ['<'] s
  let s := replaceSub ['&', 'g', 't', ';'] ['>'] s
  let s := replaceSub ['&', 'a', 'm', 'p', ';'] ['&'] s
  let s := replaceSub ['&', 'q', 'u', 'o', 't', ';'] ['"'] s
  let s := replaceSub ['&', 'a', 'p', 'o', 's', ';'] [Char.ofNat 39] s
  let s := replaceSub ['&', '#', '3', '9', ';'] [Char.ofNat 39] s
  s

/-- Python `str.strip()`: drop leading and trailing whitespace
(`Char.isWhitespace` covers the ASCII whitespace that feeds contain;
Python would additionally strip the rarer Unicode space characters). -/
def pyStrip (s : List Char) : List Char :=
  ((s.dropWhile Char.isWhitespace).reverse.dropWhile Char.isWhitespace).reverse

/-- `strip_html` (digest.py 363-373): remove markup, decode the fixed
entity table, strip surrounding whitespace (`if not text: return ''` is
the identity on the empty string). -/
def strip_html (text : String) : String :=
  String.mk (pyStrip (decodeEntities (removeTags text.data)))

/-- Python `pat in s` (case-sensitive substring test). -/
def containsSub (s pat : List Char) : Bool :=
  match s with
  | [] => pat.isEmpty
  | _ :: cs => pat.isPrefixOf s || containsSub cs pat

/-- Match `<{tag}[^>]*>` at the start of `s`; return the remainder after
the `>`. -/
def openTagAt (tag : List Char) (s : List Char) : Option (List Char) :=
  match s with
  | c :: s1 =>
    if c == '<' then
      if ciStartsWith tag s1 then
        match (s1.drop tag.length).dropWhile (fun x => !(x == '>')) with
        | x :: s4 => if x == '>' then some s4 else none
        | [] => none
      else none
    else none
  | [] => none

/-- Split `s` at the first case-insensitive occurrence of the non-empty
`pat`: `some (before, after)`. -/
def splitAtCi (pat : List Char) : List Char → Option (List Char × List Char)
  | [] => none
  | c :: cs =>
    if ciStartsWith pat (c :: cs) then some ([], (c :: cs).drop pat.length)
    else
      match splitAtCi pat cs with
      | some (pre, post) => some (c :: pre, post)
      | none => none

/-- One attempt of the full item/entry pattern at the current position:
match the open tag, then find the first closing tag; `some (content,
afterClose)` on success. -/
def findBlockStep (tag close : List Char) (s : List Char) :
    Option (List Char × List Char) :=
  match openTagAt tag s with
  | some afterOpen => splitAtCi close afterOpen
  | none => none

/-- `re.findall(r'<{tag}[^>]*>(.*?)</{tag}>', xml, DOTALL | IGNORECASE)`
(digest.py 411-412 and 430-431): scan left to right; at a match of the
open tag, the non-greedy `(.*?)` captures up to the first closing tag and
scanning resumes after it; otherwise the scan advances one character.
`fuel` only bounds the recursion and is set to the string length: every
step consumes at least one character, so it never runs out. -/
def findBlocksAux (tag close : List Char) : Nat → List Char → List (List Char)
  | 0, _ => []
  | _ + 1, [] => []
  | fuel + 1, c :: cs =>
    match findBlockStep tag close (c :: cs) with
    | some (content, afterClose) =>
      content :: findBlocksAux tag close fuel afterClose
    | none => findBlocksAux tag close fuel cs

/-- The item/entry block extraction, at full fuel. -/
def findBlocks (tag close : List Char) (s : List Char) : List (List Char) :=
  findBlocksAux tag close s.length s

/-- One candidate continuation of the link-href pattern: at offset `i` in
`s2` (the text right after `<link`), after the 6 characters of `href="`,
the greedy group `([^"]*)` runs to the next `"`, which must exist. -/
def hrefCandidate (s2 : List Char) (i : Nat) : Option (List Char) :=
  let rest := s2.drop (i + 6)
  match rest.dropWhile (fun x => !(x == '"')) with
  | '"' :: _ => some (rest.takeWhile (fun x => !(x == '"')))
  | _ => none

/-- Try candidate offsets in the given (greedy: descending) order. -/
def hrefTryAll (s2 : List Char) : List Nat → Option (List Char)
  | [] => none
  | i :: is =>
    match hrefCandidate s2 i with
    | some g => some g
    | none => hrefTryAll s2 is

/-- Match `<link[^>]*href="([^"]*)"` (IGNORECASE) at the start of `s`
(digest.py 417).  After `<link`, the greedy `[^>]*` makes the match use
the occurrence of `href="` that starts latest within the run of non-`>`
characters, falling back to earlier occurrences when no closing `"`
follows; the group then runs to the next `"` (which may lie beyond the
run). -/
def linkHrefAt (s : List Char) : Option (List Char) :=
  match s with
  | '<' :: s1 =>
    if ciStartsWith ['l', 'i', 'n', 'k'] s1 then
      let s2 := s1.drop 4
      let runLen := (s2.takeWhile (fun c => !(c == '>'))).length
      hrefTryAll s2 (((List.range (runLen + 1)).filter
        (fun i => decide (i + 6 ≤ runLen) &&
          ciStartsWith ['h', 'r', 'e', 'f', '=', '"'] (s2.drop i))).reverse)
    else none
  | _ => none

/-- `re.search` for the link-href pattern: leftmost start wins. -/
def linkHrefSearch : List Char → Option (List Char)
  | [] => none
  | c :: cs =>
    match linkHrefAt (c :: cs) with
    | some g => some g
    | none => linkHrefSearch cs

/-- Python `a or b` on strings: `a` unless it is empty. -/
def pyOrS (a b : String) : String := if a == "" then b else a

/-- One parsed feed item (digest.py 427 and 439): title, link, raw date
string, description truncated to 500 characters. -/
structure RawItem where
  title : String
  link : String
  pubDate : String
  description : String
deriving DecidableEq, Repr

/-- The Atom namespace marker tested at digest.py 409. -/
def atomMarker : List Char := "xmlns=\"http://www.w3.org/2005/Atom\"".data

/-- Parse one Atom `<entry>` block (digest.py 413-427): title; link from an
href-bearing link tag, else from the link tag content; date from
published-or-updated; description from summary-or-content. -/
def parseAtomEntry (entry : List Char) : RawItem :=
  { title := strip_html (get_tag_content (String.mk entry) "title"),
    link :=
      match linkHrefSearch entry with
      | some l => String.mk l
      | none => get_tag_content (String.mk entry) "link",
    pubDate := pyOrS (get_tag_content (String.mk entry) "published")
      (get_tag_content (String.mk entry) "updated"),
    description := String.mk ((strip_html
      (pyOrS (get_tag_content (String.mk entry) "summary")
        (get_tag_content (String.mk entry) "content"))).data.take 500) }

/-- Parse one RSS `<item>` block (digest.py 432-439): title; link from
link-or-guid; date from pubDate, dc:date or date; description from
description or content:encoded. -/
def parseRssItem (item : List Char) : RawItem :=
  { title := strip_html (get_tag_content (String.mk item) "title"),
    link := pyOrS (get_tag_content (String.mk item) "link")
      (get_tag_content (String.mk item) "guid"),
    pubDate := pyOrS (pyOrS (get_tag_content (String.mk item) "pubDate")
      (get_tag_content (String.mk item) "dc:date"))
      (get_tag_content (String.mk item) "date"),
    description := String.mk ((strip_html
      (pyOrS (get_tag_content (String.mk item) "description")
        (get_tag_content (String.mk item) "content:encoded"))).data.take 500) }

/-- `parse_rss_items` (digest.py 399-441): classify the document as Atom
(`'<feed' in xml[:1000]` or the Atom namespace string anywhere) or RSS,
extract the entry/item blocks non-greedily, parse each, and keep those
with a non-empty title or link (`if title or link`). -/
def parse_rss_items (xml : String) : List RawItem :=
  if containsSub (xml.data.take 1000) "<feed".data || containsSub xml.data atomMarker then
    ((findBlocks "entry".data "</entry>".data xml.data).map parseAtomEntry).filter
      (fun it => !(it.title == "") || !(it.link == ""))
  else
    ((findBlocks "item".data "</item>".data xml.data).map parseRssItem).filter
      (fun it => !(it.title == "") || !(it.link == ""))

/-- A feed-registry entry (digest.py 240-333). -/
structure Feed where
  name : String
  xmlUrl : String
  htmlUrl : String
deriving DecidableEq, Repr

/-- FEED_FALLBACKS (digest.py 448-463): only skyfall.dev registers an
alternative fetch URL; the other entries carry informational notes only. -/
def feedFallback (name : String) : Option String :=
  if name == "skyfall.dev" then some "https://skyfall.dev/feed.xml" else none

/-- The outcome of one network attempt (`urllib.request.urlopen` plus body
read and decode) as seen by `fetch_feed_with_retry`: a decoded body, an
HTTPError with status code and optional Location header, or any other
raised exception (timeout, TLS/transport failure, …).  A malformed body is
a `success` whose text merely fails to match any items; `decode(errors=
'ignore')` cannot raise. -/
inductive FetchOutcome where
  | success (body : String)
  | httpError (code : Nat) (location : Option String)
  | netError (msg : String)
deriving DecidableEq, Repr

/-- The network call of one attempt, in the exception monad. -/
def urlopenModel (o : FetchOutcome) : Except PyExc String :=
  match o with
  | .success body => Except.ok body
  | .httpError c loc => Except.error (PyExc.httpError c loc)
  | .netError m => Except.error (PyExc.exc m)

/-- The body of one loop iteration of `fetch_feed_with_retry`
(digest.py 495-540), up to `return articles`: fetch, parse, normalise the
dates (`parse_date(item['pubDate']) or datetime(1970, 1, 1)`; the date
normalizer of digest.py 375-397 is abstracted as the total parameter
`parseDate`, over which the fetch-stage theorem quantifies) and attach the
source identity. -/
def fetchAttempt (feed : Feed) (parseDate : String → Option Int)
    (o : FetchOutcome) : Except PyExc (List Article) := do
  let body ← urlopenModel o
  let items := parse_rss_items body
  pure (items.map (fun it =>
    { title := it.title, link := it.link,
      pubDate := (parseDate it.pubDate).getD 0,
      description := it.description,
      sourceName := feed.name, sourceUrl := feed.htmlUrl }))

/-- The `for attempt, url in enumerate(urls_to_try)` loop of
`fetch_feed_with_retry` (digest.py 494-555) with its two `except` clauses,
driven by the attempt-outcome oracle: `all` is the whole `urls_to_try`
list so far (a redirect target is appended only when not already present —
and the loop then also reaches it), `pending` its not-yet-attempted
suffix.  On success the articles are returned at once; an HTTPError with a
redirect status and a Location header extends the candidate list and the
loop continues; any other HTTPError breaks out; any other exception falls
through to the next candidate.  Falling off the loop logs a classified
error and returns `[]` (digest.py 557-568).  An exhausted oracle stands
for attempts whose outcome is an unspecified failure. -/
def fetchLoop (feed : Feed) (parseDate : String → Option Int) :
    List FetchOutcome → List String → List String → Except PyExc (List Article)
  | _, _, [] => Except.ok []
  | [], all, _url :: rest => fetchLoop feed parseDate [] all rest
  | o :: os, all, _url :: rest =>
    match fetchAttempt feed parseDate o with
    | Except.ok arts => Except.ok arts
    | Except.error (PyExc.httpError c loc) =>
      if c = 301 ∨ c = 302 ∨ c = 307 ∨ c = 308 then
        match loc with
        | some l =>
          if l ∈ all then fetchLoop feed parseDate os all rest
          else fetchLoop feed parseDate os (all ++ [l]) (rest ++ [l])
        | none => Except.ok []
      else Except.ok []
    | Except.error _ => fetchLoop feed parseDate os all rest
termination_by o _ p => o.length + p.length
decreasing_by all_goals (simp [List.length_append]; try omega)

/-- The seeded candidate list of `fetch_feed_with_retry` (digest.py
483-490): the feed's fetch URL, plus the registered fallback when one
exists and is not already present. -/
def fetchCandidates (feed : Feed) : List String :=
  let urls := [feed.xmlUrl]
  match feedFallback feed.name with
  | some fb => if fb ∈ urls then urls else urls ++ [fb]
  | none => urls

/-- `fetch_feed_with_retry` (digest.py 481-568): the attempt loop over the
seeded candidate list.  (`max_retries` is accepted and unused by the
source.) -/
def fetch_feed_with_retry (feed : Feed) (parseDate : String → Option Int)
    (outcomes : List FetchOutcome) : Except PyExc (List Article) :=
  fetchLoop feed parseDate outcomes (fetchCandidates feed) (fetchCandidates feed)

/-- `fetch_all_feeds` (digest.py 574-602): each feed resolves independently
(the fixed worker pool is modelled sequentially; completion order affects
only the aggregate ordering); a per-feed exception would be caught at
587-595 and counted as a failure, leaving other feeds' results intact. -/
def fetch_all_feeds (feeds : List Feed) (parseDate : String → Option Int)
    (oracle : Nat → List FetchOutcome) : List Article :=
  (feeds.enum.map (fun p =>
    match fetch_feed_with_retry p.2 parseDate (oracle p.1) with
    | Except.ok arts => arts
    | Except.error _ => [])).flatten

/-- The concrete RSS document of the C10 example: an item whose title is
CDATA-wrapped (its text content contains `<`) and whose link is plain. -/
def c10CdataXml : String :=
  "<item><title><![CDATA[AI < Rust]]></title><link>https://example.com/a</link><pubDate>x</pubDate><description>desc</description></item>"

/-- The renderer as its caller sees it: `articles` is a reference to
caller-owned storage (a Python list of dicts).  `generate_markdownS`
threads that storage explicitly through the call: the source body performs
one traversal of the list for `sorted(articles, …)` and otherwise only
field reads — digest.py 839-920 contains no assignment to `articles`, to
an element of it, or to a key of any article dict — so the embedding
returns the storage as received, alongside the document. -/
def generate_markdownS (store : List ScoredArticle) (trends : String)
    (hours topN : Nat) (dateStr timeStr : String) :
    String × List ScoredArticle :=
  (generate_markdown store trends hours topN dateStr timeStr, store)

/-- Concrete input for the C1 witness. -/
def c1Art : Article :=
  { title := "t", link := "l", pubDate := 0, description := "d",
    sourceName := "s", sourceUrl := "u" }

/-- Concrete scoring-response oracle for the C1 witness: batch 0 returns a
single entry with ratings (8,7,9). -/
def c1Resp : Nat → Option (List ScoreItem) := fun b =>
  if b = 0 then some [⟨0, ⟨8, 7, 9⟩, "ai-ml", ["LLM"]⟩] else none

/-- Concrete scored article for the C5 ranking example. -/
def c5SA (name : String) (sc : ℤ) : ScoredArticle := mkTestScored name sc "other"

end Digest

namespace Digest

theorem score_eq_of_mem_scoreBatch {arts : List Article} {i : Nat}
    {items : List ScoreItem} {a : ScoredArticle}
    (h : a ∈ scoreBatch arts i items) :
    a.score = pyRoundFrac (sumScores a.scoreBreakdown : ℤ) 3 := by
  rw [scoreBatch, List.mem_filterMap] at h
  obtain ⟨it, _, h2⟩ := h
  split at h2
  · cases h2
    rfl
  · cases h2

theorem score_eq_of_mem_score_articles {arts : List Article}
    {resp : Nat → Option (List ScoreItem)} {a : ScoredArticle}
    (h : a ∈ score_articles arts resp) :
    a.score = pyRoundFrac (sumScores a.scoreBreakdown : ℤ) 3 := by
  rw [score_articles] at h
  generalize hl : List.range ((arts.length + BATCH_SIZE - 1) / BATCH_SIZE) = l at h
  clear hl
  suffices H : ∀ (l : List Nat) (acc : List ScoredArticle),
      (∀ x ∈ acc, x.score = pyRoundFrac (sumScores x.scoreBreakdown : ℤ) 3) →
      a ∈ l.foldl (fun scored b =>
        match resp b with
        | none => scored
        | some items => scored ++ scoreBatch arts (b * BATCH_SIZE) items) acc →
      a.score = pyRoundFrac (sumScores a.scoreBreakdown : ℤ) 3 by
    exact H l [] (by simp) h
  intro l
  induction l with
  | nil => intro acc hacc hmem; exact hacc a hmem
  | cons b bs ih =>
    intro acc hacc hmem
    simp only [List.foldl_cons] at hmem
    refine ih _ ?_ hmem
    intro x hx
    cases hr : resp b with
    | none => rw [hr] at hx; exact hacc x hx
    | some items =>
      rw [hr] at hx
      rcases List.mem_append.mp hx with h1 | h2
      · exact hacc x h1
      · exact score_eq_of_mem_scoreBatch h2

theorem pyRound_eq_halfUp_of_bounds :
    ∀ s : ℕ, s < 31 → 3 ≤ s → pyRoundFrac (s : ℤ) 3 = roundHalfUpFrac (s : ℤ) 3 := by
  decide

/-- C1: every article scored by `score_articles` whose scoring-response entry
carried three integer ratings each in [1,10] receives as aggregate score the
round-half-up of the mean of the three ratings; in particular ratings
(8,7,9) yield aggregate 8 and (1,10,10) yield aggregate 7. -/
theorem score_articles_aggregate_is_roundHalfUp_mean :
    (∀ (arts : List Article) (resp : Nat → Option (List ScoreItem)) (a : ScoredArticle),
      a ∈ score_articles arts resp →
      1 ≤ a.scoreBreakdown.relevance → a.scoreBreakdown.relevance ≤ 10 →
      1 ≤ a.scoreBreakdown.quality → a.scoreBreakdown.quality ≤ 10 →
      1 ≤ a.scoreBreakdown.timeliness → a.scoreBreakdown.timeliness ≤ 10 →
      a.score = roundHalfUpFrac (sumScores a.scoreBreakdown : ℤ) 3) ∧
    pyRoundFrac (8 + 7 + 9) 3 = 8 ∧ pyRoundFrac (1 + 10 + 10) 3 = 7 := by
  refine ⟨?_, by decide, by decide⟩
  intro arts resp a hmem h1 h2 h3 h4 h5 h6
  rw [score_eq_of_mem_score_articles hmem]
  have hs1 : 3 ≤ sumScores a.scoreBreakdown := by
    unfold sumScores; omega
  have hs2 : sumScores a.scoreBreakdown < 31 := by
    unfold sumScores; omega
  exact pyRound_eq_halfUp_of_bounds _ hs2 hs1

theorem score_articles_aggregate_is_roundHalfUp_mean_witness :
    mkScored c1Art ⟨0, ⟨8, 7, 9⟩, "ai-ml", ["LLM"]⟩ ∈ score_articles [c1Art] c1Resp ∧
    (mkScored c1Art ⟨0, ⟨8, 7, 9⟩, "ai-ml", ["LLM"]⟩).score =
      roundHalfUpFrac (sumScores ⟨8, 7, 9⟩ : ℤ) 3 :=
  ⟨by decide,
   score_articles_aggregate_is_roundHalfUp_mean.1 [c1Art] c1Resp _ (by decide)
     (by decide) (by decide) (by decide) (by decide) (by decide) (by decide)⟩

/-- C5: the ranking step is a stable descending sort on aggregate score:
its output is pairwise descending, is a permutation of its input, and the
subsequence of articles having any fixed score is exactly their original
subsequence (ties keep original relative order); in particular for scores
[3,9,5,9] the top-2 selection is the two 9-scored articles in their
original relative order. -/
theorem ranking_is_stable_descending_sort :
    (∀ xs : List ScoredArticle,
      List.Pairwise (fun a b => b.score ≤ a.score) (sortByScoreDesc xs)) ∧
    (∀ xs : List ScoredArticle, List.Perm (sortByScoreDesc xs) xs) ∧
    (∀ (xs : List ScoredArticle) (s : ℤ),
      (sortByScoreDesc xs).filter (fun a => a.score == s) =
        xs.filter (fun a => a.score == s)) ∧
    topSelection [c5SA "a" 3, c5SA "b" 9, c5SA "c" 5, c5SA "d" 9] 2 =
      [c5SA "b" 9, c5SA "d" 9] := by
  haveI htot : IsTotal ScoredArticle scoreGE := ⟨fun a b => le_total b.score a.score⟩
  haveI htr : IsTrans ScoredArticle scoreGE :=
    ⟨fun _ _ _ h1 h2 => le_trans h2 h1⟩
  refine ⟨?_, ?_, ?_, by decide⟩
  · intro xs
    exact List.sorted_insertionSort scoreGE xs
  · intro xs
    exact List.perm_insertionSort scoreGE xs
  · intro xs s
    have hfmem : ∀ a ∈ xs.filter (fun a => a.score == s), a.score = s := by
      intro a ha
      have := List.of_mem_filter ha
      simpa using this
    have hpw : (xs.filter (fun a => a.score == s)).Pairwise scoreGE := by
      apply List.pairwise_of_forall_mem_list
      intro a ha b hb
      unfold scoreGE
      rw [hfmem a ha, hfmem b hb]
    have hsub : List.Sublist (xs.filter (fun a => a.score == s)) (sortByScoreDesc xs) :=
      List.sublist_insertionSort hpw (List.filter_sublist xs)
    have hsub2 : List.Sublist (xs.filter (fun a => a.score == s))
        ((sortByScoreDesc xs).filter (fun a => a.score == s)) := by
      have := hsub.filter (fun a => a.score == s)
      rwa [List.filter_eq_self.mpr (fun a ha => by simpa using hfmem a ha)] at this
    have hperm : List.Perm ((sortByScoreDesc xs).filter (fun a => a.score == s))
        (xs.filter (fun a => a.score == s)) :=
      (List.perm_insertionSort scoreGE xs).filter _
    exact (hsub2.eq_of_length hperm.length_eq.symm).symm

end Digest

namespace Digest

theorem lookup_map_of_ne (m : List (String × List ScoredArticle))
    (a : ScoredArticle) (cat : String) (h : ¬ a.category = cat) :
    lookupCategory (m.map (fun p => if p.1 = a.category then (p.1, p.2 ++ [a]) else p)) cat =
      lookupCategory m cat := by
  induction m with
  | nil => rfl
  | cons p m' ih =>
    have hkey : (if p.1 = a.category then (p.1, p.2 ++ [a]) else p).1 = p.1 := by
      split <;> rfl
    by_cases hp : p.1 = cat
    · have hpa : ¬ cat = a.category := fun hh => h hh.symm
      simp [lookupCategory, hpa, hp]
    · simp [lookupCategory, hkey, hp, ih]

theorem lookup_map_of_eq (m : List (String × List ScoredArticle))
    (a : ScoredArticle) (cat : String) (h : a.category = cat)
    (hk : (m.any fun p => p.1 == cat) = true) :
    lookupCategory (m.map (fun p => if p.1 = a.category then (p.1, p.2 ++ [a]) else p)) cat =
      lookupCategory m cat ++ [a] := by
  induction m with
  | nil => simp at hk
  | cons p m' ih =>
    by_cases hp : p.1 = cat
    · have hpa : p.1 = a.category := by rw [hp, h]
      simp [lookupCategory, hpa, hp, h]
    · have hpc : (p.1 == cat) = false := beq_eq_false_iff_ne.mpr hp
      have hk' : (m'.any fun p => p.1 == cat) = true := by
        simpa [List.any_cons, hpc] using hk
      have hkey : (if p.1 = a.category then (p.1, p.2 ++ [a]) else p).1 = p.1 := by
        split <;> rfl
      simp [lookupCategory, hkey, hp, ih hk']

theorem lookup_append_of_no_key (m₁ m₂ : List (String × List ScoredArticle))
    (cat : String) (h : (m₁.any fun p => p.1 == cat) = false) :
    lookupCategory (m₁ ++ m₂) cat = lookupCategory m₂ cat := by
  induction m₁ with
  | nil => rfl
  | cons p m' ih =>
    simp only [List.any_cons, Bool.or_eq_false_iff] at h
    simp [lookupCategory, beq_eq_false_iff_ne.mp h.1, ih h.2]

theorem lookup_append_of_key (m₁ m₂ : List (String × List ScoredArticle))
    (cat : String) (h : (m₁.any fun p => p.1 == cat) = true) :
    lookupCategory (m₁ ++ m₂) cat = lookupCategory m₁ cat := by
  induction m₁ with
  | nil => simp at h
  | cons p m' ih =>
    by_cases hp : p.1 = cat
    · simp [lookupCategory, hp]
    · have hpc : (p.1 == cat) = false := beq_eq_false_iff_ne.mpr hp
      have h' : (m'.any fun p => p.1 == cat) = true := by
        simpa [List.any_cons, hpc] using h
      simp [lookupCategory, hp, ih h']

theorem lookupCategory_eq_nil (m : List (String × List ScoredArticle)) (cat : String)
    (h : (m.any fun p => p.1 == cat) = false) :
    lookupCategory m cat = [] := by
  induction m with
  | nil => rfl
  | cons p m' ih =>
    simp only [List.any_cons, Bool.or_eq_false_iff] at h
    simp [lookupCategory, beq_eq_false_iff_ne.mp h.1, ih h.2]

theorem lookup_addToCategory (m : List (String × List ScoredArticle))
    (a : ScoredArticle) (cat : String) :
    lookupCategory (addToCategory m a) cat =
      lookupCategory m cat ++ (if a.category = cat then [a] else []) := by
  by_cases h2 : a.category = cat
  · rw [if_pos h2]
    by_cases hany : (m.any fun p => p.1 == a.category) = true
    · rw [addToCategory, if_pos hany,
        lookup_map_of_eq m a cat h2 (by rw [← h2]; exact hany)]
    · have hf : (m.any fun p => p.1 == a.category) = false := Bool.eq_false_iff.mpr hany
      have hfc : (m.any fun p => p.1 == cat) = false := by rw [← h2]; exact hf
      rw [addToCategory, if_neg hany, lookup_append_of_no_key m _ cat hfc,
        lookupCategory_eq_nil m cat hfc]
      simp [lookupCategory, h2]
  · rw [if_neg h2, List.append_nil]
    by_cases hany : (m.any fun p => p.1 == a.category) = true
    · rw [addToCategory, if_pos hany, lookup_map_of_ne m a cat h2]
    · rw [addToCategory, if_neg hany]
      by_cases hkc : (m.any fun p => p.1 == cat) = true
      · rw [lookup_append_of_key m _ cat hkc]
      · have hkc2 : (m.any fun p => p.1 == cat) = false := Bool.eq_false_iff.mpr hkc
        rw [lookup_append_of_no_key m _ cat hkc2, lookupCategory_eq_nil m cat hkc2]
        simp [lookupCategory, h2]

theorem lookup_groupByCategory (arts : List ScoredArticle) (cat : String) :
    lookupCategory (groupByCategory arts) cat =
      arts.filter (fun a => a.category == cat) := by
  suffices H : ∀ (l : List ScoredArticle) (m : List (String × List ScoredArticle)),
      lookupCategory (l.foldl addToCategory m) cat =
        lookupCategory m cat ++ l.filter (fun a => a.category == cat) by
    simpa [groupByCategory, lookupCategory] using H arts []
  intro l
  induction l with
  | nil => intro m; simp
  | cons a l ih =>
    intro m
    simp only [List.foldl_cons, ih, lookup_addToCategory, List.filter_cons]
    by_cases h : a.category = cat
    · have hb : (a.category == cat) = true := by rw [h]; exact beq_self_eq_true cat
      simp [h, hb, List.append_assoc]
    · simp [h, beq_eq_false_iff_ne.mpr h]

/-- C3 counterexample: two scored ai-ml articles with top-N = 1.  The group
rendered for "ai-ml" in the document's category overview holds only the one
top-N article, while the claim's partition of the full scored set holds
both — the overview is computed from the top-N subset only, so the top-N
selection does affect it, contrary to the claim. -/
theorem category_overview_counterexample :
    docCategoryGroup [mkTestScored "x" 9 "ai-ml", mkTestScored "y" 8 "ai-ml"] 1 none "ai-ml" ≠
      specFullSetCategoryGroup
        [mkTestScored "x" 9 "ai-ml", mkTestScored "y" 8 "ai-ml"] "ai-ml" := by
  decide

/-- C3 (amended): the category-overview section partitions exactly the
articles passed to the renderer — in the pipeline the summarized top-N
subset of the scored set, not the full scored set — by category: the group
rendered under `cat` is the first ≤5 articles of category `cat` in the
renderer's score-sorted input.  Scored articles left out of the top-N
subset do not appear. -/
theorem category_overview_partitions_render_input :
    ∀ (scored : List ScoredArticle) (topN : Nat)
      (summResp : Option (List SummaryItem)) (cat : String),
      docCategoryGroup scored topN summResp cat =
        ((sortByScoreDesc (renderInput scored topN summResp)).filter
          (fun a => a.category == cat)).take 5 := by
  intro scored topN summResp cat
  rw [docCategoryGroup, lookup_groupByCategory]

end Digest

namespace Digest

theorem cached_after_record (link t s d : String) (n : Int) (st : CacheState) :
    ((cache_article link t s d n st).any (fun r => r.link == link)) = true := by
  rw [cache_article]
  split_ifs with h
  · exact h
  · simp [List.any_append]

/-- C8: cache-store semantics: (i) `exists` is a pure query, leaving the
store unchanged, so repeated queries with no intervening `record` return
the same answer (in particular false twice in a row); (ii) after
`record(link, …)`, `exists(link)` returns true, and (iii) it stays true
across any further record; (iv) `record` is insert-if-absent, so a second
record of the same link leaves the store unchanged; (v) after a purge the
record answers exactly according to whether it aged past retention. -/
theorem cache_exists_record_semantics :
    (∀ (link : String) (st : CacheState), (is_article_cached link st).2 = st) ∧
    (∀ (link link2 : String) (st : CacheState),
      (is_article_cached link ((is_article_cached link2 st).2)).1 =
        (is_article_cached link st).1) ∧
    (∀ (link t s d : String) (n : Int) (st : CacheState),
      (is_article_cached link (cache_article link t s d n st)).1 = true) ∧
    (∀ (link t s d : String) (n : Int) (link2 t2 s2 d2 : String) (n2 : Int)
      (st : CacheState),
      (is_article_cached link
        (cache_article link2 t2 s2 d2 n2 (cache_article link t s d n st))).1 = true) ∧
    (∀ (link t s d : String) (n : Int) (t2 s2 d2 : String) (n2 : Int)
      (st : CacheState),
      cache_article link t2 s2 d2 n2 (cache_article link t s d n st) =
        cache_article link t s d n st) ∧
    (∀ (link t s d : String) (n days now2 : Int),
      (is_article_cached link
        (clean_old_cache days now2 (cache_article link t s d n []))).1 =
        decide (now2 - days * 86400 ≤ n)) := by
  refine ⟨fun link st => rfl, fun link link2 st => rfl, ?_, ?_, ?_, ?_⟩
  · intro link t s d n st
    exact cached_after_record link t s d n st
  · intro link t s d n link2 t2 s2 d2 n2 st
    simp only [is_article_cached]
    conv_lhs => rw [cache_article]
    split_ifs with h
    · exact cached_after_record link t s d n st
    · simp [List.any_append, cached_after_record link t s d n st]
  · intro link t s d n t2 s2 d2 n2 st
    conv_lhs => rw [cache_article]
    rw [if_pos (cached_after_record link t s d n st)]
  · intro link t s d n days now2
    by_cases h : now2 - days * 86400 ≤ n <;>
      simp [cache_article, clean_old_cache, is_article_cached, h] <;> omega

end Digest

namespace Digest

/-- C2: the code contradicts the claim.  Whenever the pipeline runs in
incremental mode (cache enabled) and a last-run timestamp is recorded,
`main` raises UnboundLocalError at digest.py 1566: `timezone` is imported
inside `main` only at line 1581, which makes it a local name throughout
`main`, unassigned when line 1566 reads `timezone.utc`.  The run therefore
aborts before fetching instead of widening the window and proceeding past
the filter stage. -/
theorem incremental_with_lastRun_raises_unboundLocal :
    ∀ (hours topN : Nat) (st : CacheState) (lastT now : Int)
      (fetched : List Article) (scoreResp : Nat → Option (List ScoreItem))
      (summResp : Option (List SummaryItem)) (trendsResp : Option String)
      (dateStr timeStr : String),
      mainRun ⟨hours, topN, true, false⟩ st (some lastT) now fetched scoreResp
        summResp trendsResp dateStr timeStr =
        Except.error (PyExc.unboundLocal "timezone") := by
  intro hours topN st lastT now fetched scoreResp summResp trendsResp dateStr timeStr
  rfl

/-- C6: if zero articles are fetched across all sources, or zero articles
survive the time/dedup filter, or zero articles are scored, the run halts
with a non-zero exit status and no output document is written. -/
theorem empty_stage_halts_without_output :
    ∀ (args : MainArgs) (st : CacheState) (lastRun : Option Int) (now : Int)
      (fetched : List Article) (scoreResp : Nat → Option (List ScoreItem))
      (summResp : Option (List SummaryItem)) (trendsResp : Option String)
      (dateStr timeStr : String),
      (fetched = [] ∨
        (filterRecent args.incremental args.noCache
          (now - (args.hours : Int) * 3600) now fetched st).1 = [] ∨
        score_articles
          ((filterRecent args.incremental args.noCache
            (now - (args.hours : Int) * 3600) now fetched st).1) scoreResp = []) →
      (runOutcome (mainRun args st lastRun now fetched scoreResp summResp
        trendsResp dateStr timeStr)).1 ≠ 0 ∧
      (runOutcome (mainRun args st lastRun now fetched scoreResp summResp
        trendsResp dateStr timeStr)).2 = none := by
  intro args st lastRun now fetched scoreResp summResp trendsResp dateStr timeStr h
  simp only [mainRun]
  split_ifs with h1 h2 h3 h4
  · exact ⟨one_ne_zero, rfl⟩
  · exact ⟨one_ne_zero, rfl⟩
  · exact ⟨one_ne_zero, rfl⟩
  · exact ⟨one_ne_zero, rfl⟩
  · exfalso
    rcases h with h | h | h
    · rw [h] at h2
      simp at h2
    · rw [h] at h3
      simp at h3
    · rw [h] at h4
      simp at h4

/-- C6 witness: a run that fetches zero articles exits non-zero and writes
nothing. -/
theorem empty_stage_halts_without_output_witness :
    (runOutcome (mainRun ⟨48, 15, false, false⟩ [] none 0 [] (fun _ => none)
      none none "date" "time")).1 ≠ 0 ∧
    (runOutcome (mainRun ⟨48, 15, false, false⟩ [] none 0 [] (fun _ => none)
      none none "date" "time")).2 = none :=
  empty_stage_halts_without_output ⟨48, 15, false, false⟩ [] none 0 []
    (fun _ => none) none none "date" "time" (Or.inl rfl)

theorem filterRecent_plain (cutoff now : Int) (articles : List Article)
    (st : CacheState) :
    filterRecent false false cutoff now articles st =
      (articles.filter (fun x => decide (cutoff ≤ x.pubDate)), st) := by
  unfold filterRecent
  suffices H : ∀ (l : List Article) (acc : List Article),
      l.foldl (filterStep false false cutoff now) (acc, st) =
        (acc ++ l.filter (fun x => decide (cutoff ≤ x.pubDate)), st) by
    simpa using H articles []
  intro l
  induction l with
  | nil => intro acc; simp
  | cons x l ih =>
    intro acc
    by_cases h : cutoff ≤ x.pubDate
    · simp [filterStep, h, ih, List.filter_cons, List.append_assoc]
    · simp [filterStep, h, ih, List.filter_cons]

/-- C7: the time-window filter has an inclusive lower bound: in a plain
(non-incremental) run, an article whose publish timestamp equals the
cutoff (now minus the configured hours, in seconds) exactly is admitted
(`if pub_date >= cutoff`, digest.py 1596). -/
theorem time_filter_cutoff_inclusive :
    ∀ (hours : Nat) (now : Int) (st : CacheState) (articles : List Article)
      (a : Article),
      a ∈ articles → a.pubDate = now - (hours : Int) * 3600 →
      a ∈ (filterRecent false false (now - (hours : Int) * 3600) now
        articles st).1 := by
  intro hours now st articles a hmem heq
  rw [filterRecent_plain]
  simp only [List.mem_filter]
  exact ⟨hmem, by rw [heq]; simp⟩

/-- C7 witness: with a 48-hour window ending at epoch second 200000 (cutoff
27200), the article published exactly at 27200 is admitted. -/
theorem time_filter_cutoff_inclusive_witness :
    c7Art ∈ (filterRecent false false ((200000 : Int) - (48 : Nat) * 3600) 200000
      [c7Art] []).1 :=
  time_filter_cutoff_inclusive 48 200000 [] [c7Art] c7Art (by simp) (by decide)

end Digest

namespace Digest

theorem fetchLoop_isOk (feed : Feed) (parseDate : String → Option Int)
    (outcomes : List FetchOutcome) (all pending : List String) :
    (match fetchLoop feed parseDate outcomes all pending with
      | Except.ok _ => true
      | Except.error _ => false) = true := by
  induction outcomes, all, pending using fetchLoop.induct feed parseDate <;>
    (first
      | (rw [fetchLoop]; simp_all)
      | (rw [fetchLoop.eq_def]; simp_all))

/-- C4: for every feed source and every sequence of network-attempt
outcomes (success, HTTP error with or without a redirect Location,
transport/TLS failure, malformed body — and any behaviour of the date
normalizer), `fetch_feed_with_retry` returns a list of parsed articles or
the empty list: the two `except` clauses at digest.py 542-555 cover every
exception an attempt can raise, so none propagates past the stage, and
`fetch_all_feeds` (digest.py 574-602) assembles exactly these per-source
results with failures isolated per feed. -/
theorem fetch_stage_never_raises :
    ∀ (feed : Feed) (parseDate : String → Option Int)
      (outcomes : List FetchOutcome),
      ∃ arts : List Article,
        fetch_feed_with_retry feed parseDate outcomes = Except.ok arts := by
  intro feed parseDate outcomes
  have h := fetchLoop_isOk feed parseDate outcomes (fetchCandidates feed)
    (fetchCandidates feed)
  unfold fetch_feed_with_retry
  cases he : fetchLoop feed parseDate outcomes (fetchCandidates feed)
      (fetchCandidates feed) with
  | ok arts => exact ⟨arts, rfl⟩
  | error e => rw [he] at h; simp at h

theorem takeWhile_not_lt_contains (l : List Char) :
    ((l.takeWhile (fun c => !(c == '<'))).contains '<') = false := by
  induction l with
  | nil => rfl
  | cons c cs ih =>
    by_cases h : c = '<'
    · simp [List.takeWhile_cons, h]
    · have h1 : (c == '<') = false := beq_eq_false_iff_ne.mpr h
      simp [List.takeWhile_cons, h1, List.contains_cons]
      exact ⟨fun hh => h hh.symm, by simpa using ih⟩

theorem tagMatchAt_no_lt (tag s g : List Char) (h : tagMatchAt tag s = some g) :
    (g.contains '<') = false := by
  simp only [tagMatchAt] at h
  repeat' split at h
  all_goals first
    | (cases h; exact takeWhile_not_lt_contains _)
    | cases h

theorem tagSearch_no_lt (tag : List Char) :
    ∀ (s g : List Char), tagSearch tag s = some g → (g.contains '<') = false := by
  intro s
  induction s with
  | nil => intro g h; simp [tagSearch] at h
  | cons c cs ih =>
    intro g h
    rw [tagSearch] at h
    cases hm : tagMatchAt tag (c :: cs) with
    | some g2 =>
      rw [hm] at h
      cases h
      exact tagMatchAt_no_lt tag (c :: cs) _ hm
    | none =>
      rw [hm] at h
      exact ih g h

/-- C10 counterexample: an element whose text content contains `<` is not
always extracted as the empty string: when the content itself holds a
nested same-named tag pair, the matcher extracts the inner element's text
("b" here) instead of the empty string. -/
theorem tag_content_lt_not_always_empty :
    get_tag_content "<title>a<title>b</title></title>" "title" = "b" ∧
    get_tag_content "<title>a<title>b</title></title>" "title" ≠ "" := by
  exact ⟨by decide, by decide⟩

/-- C10 (amended): the tag-content matcher can never extract text containing
`<` — its capture is a run of non-`<` characters — so an element whose text
content contains `<` yields no match at that element itself; when no other
occurrence of the tag pattern exists in the item (the common case, e.g. a
CDATA-wrapped title), the extraction is the empty string, and such an item
is still emitted if its link is extractable, with empty title (or
description).  (A nested same-named tag pair inside the element is the
exception: the matcher then extracts the inner text, see the
counterexample.) -/
theorem tag_content_never_contains_lt :
    (∀ (xml tag : String), ((get_tag_content xml tag).data.contains '<') = false) ∧
    get_tag_content c10CdataXml "title" = "" ∧
    parse_rss_items c10CdataXml =
      [{ title := "", link := "https://example.com/a", pubDate := "x",
         description := "desc" }] := by
  refine ⟨?_, by decide, by decide⟩
  intro xml tag
  unfold get_tag_content
  cases hs : tagSearch tag.data xml.data with
  | some g =>
    exact tagSearch_no_lt tag.data xml.data g hs
  | none => rfl

end Digest

namespace Digest

/-- C9: the Markdown renderer does not mutate its inputs: the caller's
article storage threaded through the renderer comes back unchanged — the
document is built from reads alone — and consequently rendering again from
the returned storage yields the identical document. -/
theorem generate_markdown_preserves_inputs :
    ∀ (store : List ScoredArticle) (trends : String) (hours topN : Nat)
      (dateStr timeStr : String),
      (generate_markdownS store trends hours topN dateStr timeStr).2 = store ∧
      (generate_markdownS
        ((generate_markdownS store trends hours topN dateStr timeStr).2)
        trends hours topN dateStr timeStr).1 =
        (generate_markdownS store trends hours topN dateStr timeStr).1 :=
  fun _ _ _ _ _ _ => ⟨rfl, rfl⟩

end Digest

namespace Digest

theorem replaceSubAux_fuel_irrelevant (pat rep : List Char) :
    ∀ (f1 : Nat) (s : List Char) (f2 : Nat), s.length ≤ f1 → s.length ≤ f2 →
      replaceSubAux pat rep f1 s = replaceSubAux pat rep f2 s := by
  intro f1
  induction f1 with
  | zero =>
    intro s f2 h1 _h2
    have hs : s = [] := List.eq_nil_of_length_eq_zero (Nat.le_zero.mp h1)
    subst hs
    cases f2 <;> rfl
  | succ a ih =>
    intro s f2 h1 h2
    cases s with
    | nil => cases f2 <;> rfl
    | cons c cs =>
      cases f2 with
      | zero => simp at h2
      | succ b =>
        rw [replaceSubAux, replaceSubAux]
        have h1c : cs.length ≤ a := by
          simp only [List.length_cons] at h1; omega
        have h2c : cs.length ≤ b := by
          simp only [List.length_cons] at h2; omega
        by_cases hp : pat ≠ [] ∧ pat.isPrefixOf (c :: cs)
        · rw [if_pos hp, if_pos hp]
          have hlen : ((c :: cs).drop pat.length).length ≤ cs.length := by
            have hp1 : 0 < pat.length := List.length_pos.mpr hp.1
            rw [List.length_drop]
            simp only [List.length_cons]
            omega
          rw [ih _ b (le_trans hlen h1c) (le_trans hlen h2c)]
        · rw [if_neg hp, if_neg hp, ih cs b h1c h2c]

theorem removeTagsAux_nil (f : Nat) : removeTagsAux f [] = [] := by
  cases f <;> rfl

theorem dropWhile_first_not (p : Char → Bool) :
    ∀ (l : List Char) (x : Char) (s4 : List Char),
      l.dropWhile p = x :: s4 → p x = false := by
  intro l
  induction l with
  | nil => intro x s4 h; cases h
  | cons c cs ih =>
    intro x s4 h
    rw [List.dropWhile_cons] at h
    by_cases hp : p c = true
    · rw [if_pos hp] at h; exact ih x s4 h
    · rw [if_neg hp] at h; cases h; exact Bool.eq_false_iff.mpr hp

theorem removeTagsAux_fuel_irrelevant :
    ∀ (f1 : Nat) (s : List Char) (f2 : Nat), s.length ≤ f1 → s.length ≤ f2 →
      removeTagsAux f1 s = removeTagsAux f2 s := by
  intro f1
  induction f1 with
  | zero =>
    intro s f2 h1 _h2
    have hs : s = [] := List.eq_nil_of_length_eq_zero (Nat.le_zero.mp h1)
    subst hs
    cases f2 <;> rfl
  | succ a ih =>
    intro s f2 h1 h2
    cases s with
    | nil => cases f2 <;> rfl
    | cons c cs =>
      cases f2 with
      | zero => simp at h2
      | succ b =>
        have h1c : cs.length ≤ a := by
          simp only [List.length_cons] at h1; omega
        have h2c : cs.length ≤ b := by
          simp only [List.length_cons] at h2; omega
        cases cs with
        | nil =>
          rw [removeTagsAux, removeTagsAux]
          by_cases hc : (c == '<') = true
          · rw [if_pos hc, if_pos hc]
          · rw [if_neg hc, if_neg hc, removeTagsAux_nil a, removeTagsAux_nil b]
        | cons d ds =>
          rw [removeTagsAux, removeTagsAux]
          by_cases hc : (c == '<') = true
          · rw [if_pos hc, if_pos hc]
            by_cases hd : (d == '>') = true
            · rw [if_pos hd, if_pos hd]
              exact congrArg (fun l => c :: l) (ih (d :: ds) b h1c h2c)
            · rw [if_neg hd, if_neg hd]
              cases hdw : (d :: ds).dropWhile (fun x => !(x == '>')) with
              | nil => exact congrArg (fun l => c :: l) (ih (d :: ds) b h1c h2c)
              | cons x s4 =>
                have hx : (fun y => !(y == '>')) x = false :=
                  dropWhile_first_not _ (d :: ds) x s4 hdw
                have hx2 : x = '>' := by simpa using hx
                subst hx2
                have hle : ((d :: ds).dropWhile (fun x => !(x == '>'))).length ≤
                    (d :: ds).length := (List.dropWhile_sublist _).length_le
                rw [hdw] at hle
                simp only [List.length_cons] at hle h1c h2c
                exact ih s4 b (by omega) (by omega)
          · rw [if_neg hc, if_neg hc]
            exact congrArg (fun l => c :: l) (ih (d :: ds) b h1c h2c)

theorem openTagAt_length (tag : List Char) :
    ∀ (s r : List Char), openTagAt tag s = some r → r.length < s.length := by
  intro s r h
  cases s with
  | nil => simp [openTagAt] at h
  | cons c s1 =>
    rw [openTagAt] at h
    by_cases hc : (c == '<') = true
    · rw [if_pos hc] at h
      by_cases hci : ciStartsWith tag s1 = true
      · rw [if_pos hci] at h
        cases hdw : (s1.drop tag.length).dropWhile (fun x => !(x == '>')) with
        | nil => rw [hdw] at h; cases h
        | cons x s4 =>
          rw [hdw] at h
          have h2 : (if (x == '>') = true then some s4 else none) = some r := h
          by_cases hx : (x == '>') = true
          · rw [if_pos hx] at h2
            cases h2
            have hle : ((s1.drop tag.length).dropWhile (fun x => !(x == '>'))).length ≤
                (s1.drop tag.length).length := (List.dropWhile_sublist _).length_le
            rw [hdw] at hle
            have hd : (s1.drop tag.length).length ≤ s1.length := by
              rw [List.length_drop]; omega
            simp only [List.length_cons] at hle ⊢
            omega
          · rw [if_neg hx] at h2; cases h2
      · rw [if_neg hci] at h; cases h
    · rw [if_neg hc] at h; cases h

theorem splitAtCi_post_length (pat : List Char) :
    ∀ (s pre post : List Char), splitAtCi pat s = some (pre, post) →
      post.length ≤ s.length := by
  intro s
  induction s with
  | nil => intro pre post h; simp [splitAtCi] at h
  | cons c cs ih =>
    intro pre post h
    rw [splitAtCi] at h
    by_cases hp : ciStartsWith pat (c :: cs) = true
    · rw [if_pos hp] at h
      cases h
      rw [List.length_drop]
      omega
    · rw [if_neg hp] at h
      cases hsp : splitAtCi pat cs with
      | none => rw [hsp] at h; cases h
      | some pr =>
        obtain ⟨pre2, post2⟩ := pr
        rw [hsp] at h
        cases h
        exact le_trans (ih pre2 _ hsp) (by simp)

theorem findBlockStep_length (tag close : List Char) (s : List Char)
    (content afterClose : List Char)
    (h : findBlockStep tag close s = some (content, afterClose)) :
    afterClose.length < s.length := by
  rw [findBlockStep] at h
  cases hop : openTagAt tag s with
  | none => rw [hop] at h; cases h
  | some afterOpen =>
    rw [hop] at h
    have h1 := openTagAt_length tag s afterOpen hop
    have h2 := splitAtCi_post_length close afterOpen content afterClose h
    omega

theorem findBlocksAux_fuel_irrelevant (tag close : List Char) :
    ∀ (f1 : Nat) (s : List Char) (f2 : Nat), s.length ≤ f1 → s.length ≤ f2 →
      findBlocksAux tag close f1 s = findBlocksAux tag close f2 s := by
  intro f1
  induction f1 with
  | zero =>
    intro s f2 h1 _h2
    have hs : s = [] := List.eq_nil_of_length_eq_zero (Nat.le_zero.mp h1)
    subst hs
    cases f2 <;> rfl
  | succ a ih =>
    intro s f2 h1 h2
    cases s with
    | nil => cases f2 <;> rfl
    | cons c cs =>
      cases f2 with
      | zero => simp at h2
      | succ b =>
        rw [findBlocksAux, findBlocksAux]
        have h1c : cs.length ≤ a := by
          simp only [List.length_cons] at h1; omega
        have h2c : cs.length ≤ b := by
          simp only [List.length_cons] at h2; omega
        cases hstep : findBlockStep tag close (c :: cs) with
        | none => exact ih cs b h1c h2c
        | some pr =>
          obtain ⟨content, afterClose⟩ := pr
          have hlen : afterClose.length < (c :: cs).length :=
            findBlockStep_length tag close (c :: cs) content afterClose hstep
          simp only [List.length_cons] at hlen
          exact congrArg (fun l => content :: l) (ih afterClose b (by omega) (by omega))

end Digest
